import Mathlib

/-!
Verification development for the credential-at-rest protection core of the
repository `playwright-youtube-googlelogin-githubactions`.

The core under study consists of
  * `encrypt` / `decrypt` in `src/utils/encryptionHelper.ts`
    (AES-256-GCM with a PBKDF2-derived key, salt/iv/tag/ciphertext envelope,
    base64-rendered),
  * the config secret resolver `readJsonFile` in `src/utils/jsonhelper.ts`,
  * the offline password-encryption CLI (`encrypt-password` script).

Modelling conventions:
  * Byte buffers (`Buffer`) are `List Nat` whose elements are `< 256`.
  * Randomness (`crypto.randomBytes`) is threaded explicitly: `encrypt`
    receives the drawn `salt` and `iv` as arguments.
  * The platform cryptographic primitives (`crypto.pbkdf2Sync` and the
    AES-256-GCM cipher core) and the UTF-8 codec are not reimplemented;
    they are parameters, collected in the structure `GcmPrims` together
    with their documented contracts (output lengths, byte-validity,
    decryption inverts encryption, and the fact that the GCM
    authentication tag is a deterministic function of key, iv and
    ciphertext).  Every theorem is proved for an arbitrary instance, and a
    small executable instance `toyPrims` is supplied so that statements
    can be evaluated on concrete inputs.
  * Base64 (`Buffer.toString('base64')` / `Buffer.from(·, 'base64')`) is
    implemented concretely on canonical base64 text, which is the only
    form this repository ever produces.
-/

/-- Bytes are naturals below 256. -/
def ValidBytes (bs : List Nat) : Prop := ∀ b ∈ bs, b < 256

instance : DecidablePred ValidBytes := fun bs =>
  inferInstanceAs (Decidable (∀ b ∈ bs, b < 256))

/-! ## Base64 -/

/-- The standard base64 alphabet. -/
def b64Alphabet : List Char :=
  "ABCDEFGHIJKLMNOPQRSTUVWXYZabcdefghijklmnopqrstuvwxyz0123456789+/".toList

/-- Character for a 6-bit value. -/
def sextetChar (n : Nat) : Char := b64Alphabet.getD n '?'

/-- 6-bit value of an alphabet character, `none` for non-alphabet input. -/
def charSextet (c : Char) : Option Nat :=
  (b64Alphabet.indexOf? c).map id

/-- Base64-encode a byte list, three bytes to four characters, `=`-padded. -/
def b64EncodeChunks : List Nat → List Char
  | b0 :: b1 :: b2 :: rest =>
      sextetChar (b0 / 4) :: sextetChar (b0 % 4 * 16 + b1 / 16) ::
      sextetChar (b1 % 16 * 4 + b2 / 64) :: sextetChar (b2 % 64) ::
      b64EncodeChunks rest
  | [b0, b1] =>
      [sextetChar (b0 / 4), sextetChar (b0 % 4 * 16 + b1 / 16),
       sextetChar (b1 % 16 * 4), '=']
  | [b0] =>
      [sextetChar (b0 / 4), sextetChar (b0 % 4 * 16), '=', '=']
  | [] => []

/-- Base64-decode canonical base64 characters, four characters to three bytes. -/
def b64DecodeChunks : List Char → List Nat
  | c0 :: c1 :: c2 :: c3 :: rest =>
      match charSextet c0, charSextet c1 with
      | some s0, some s1 =>
          if c2 = '=' then [s0 * 4 + s1 / 16]
          else
            match charSextet c2 with
            | some s2 =>
                if c3 = '=' then [s0 * 4 + s1 / 16, s1 % 16 * 16 + s2 / 4]
                else
                  match charSextet c3 with
                  | some s3 =>
                      (s0 * 4 + s1 / 16) :: (s1 % 16 * 16 + s2 / 4) ::
                      (s2 % 4 * 64 + s3) :: b64DecodeChunks rest
                  | none => []
            | none => []
      | _, _ => []
  | _ => []

/-- Models `Buffer.toString('base64')`. -/
def base64Encode (bs : List Nat) : String := String.mk (b64EncodeChunks bs)

/-- Models `Buffer.from(s, 'base64')` on canonical base64 text (the only
form produced by this repository; Node's lenient treatment of
non-canonical input is outside the claims' reach except through concrete
inputs on which the two coincide). -/
def base64Decode (s : String) : List Nat := b64DecodeChunks s.data

theorem charSextet_sextetChar : ∀ n < 64, charSextet (sextetChar n) = some n := by
  decide

theorem sextetChar_ne_eq : ∀ n < 64, sextetChar n ≠ '=' := by
  decide

theorem b64_decode_encode (bs : List Nat) (h : ValidBytes bs) :
    b64DecodeChunks (b64EncodeChunks bs) = bs := by
  induction bs using b64EncodeChunks.induct with
  | case1 b0 b1 b2 rest ih =>
      have h0 : b0 < 256 := h b0 (by simp)
      have h1 : b1 < 256 := h b1 (by simp)
      have h2 : b2 < 256 := h b2 (by simp)
      have hrest : ValidBytes rest := fun b hb => h b (by simp [hb])
      rw [b64EncodeChunks, b64DecodeChunks]
      rw [charSextet_sextetChar _ (by omega), charSextet_sextetChar _ (by omega)]
      simp only
      rw [if_neg (sextetChar_ne_eq _ (by omega)),
        charSextet_sextetChar _ (by omega)]
      simp only
      rw [if_neg (sextetChar_ne_eq _ (by omega)),
        charSextet_sextetChar _ (by omega)]
      simp [ih hrest]
      omega
  | case2 b0 b1 =>
      have h0 : b0 < 256 := h b0 (by simp)
      have h1 : b1 < 256 := h b1 (by simp)
      rw [b64EncodeChunks, b64DecodeChunks]
      rw [charSextet_sextetChar _ (by omega), charSextet_sextetChar _ (by omega)]
      simp only
      rw [if_neg (sextetChar_ne_eq _ (by omega)),
        charSextet_sextetChar _ (by omega)]
      simp
      omega
  | case3 b0 =>
      have h0 : b0 < 256 := h b0 (by simp)
      rw [b64EncodeChunks, b64DecodeChunks]
      rw [charSextet_sextetChar _ (by omega), charSextet_sextetChar _ (by omega)]
      simp
      omega
  | case4 => simp [b64EncodeChunks, b64DecodeChunks]

theorem base64_decode_encode (bs : List Nat) (h : ValidBytes bs) :
    base64Decode (base64Encode bs) = bs := by
  simpa [base64Decode, base64Encode] using b64_decode_encode bs h

theorem base64Encode_injOn {bs cs : List Nat} (hb : ValidBytes bs)
    (hc : ValidBytes cs) (h : base64Encode bs = base64Encode cs) : bs = cs := by
  have := congrArg base64Decode h
  rwa [base64_decode_encode bs hb, base64_decode_encode cs hc] at this

/-! ## Platform primitives

`crypto.pbkdf2Sync`, the AES-256-GCM cipher core and the UTF-8 codec are
platform functions, not code of this repository.  They enter the model as
the fields of `GcmPrims`, together with their documented contracts:

* `pbkdf2 password salt iterations keylen digest` models
  `crypto.pbkdf2Sync(password, salt, iterations, keylen, digest)`.
* `encCore key iv plain` is the ciphertext produced by an AES-256-GCM
  cipher (`createCipheriv` / `update` / `final`), `decCore` the plaintext
  produced by the decipher on a ciphertext; GCM decryption inverts
  encryption (`dec_enc`), and ciphertext length equals plaintext length.
* `gcmTag key iv ciphertext` is the 16-byte authentication tag
  (`getAuthTag`); with no AAD it is a deterministic function of key, iv
  and ciphertext, which is exactly what tag verification recomputes.
* `utf8` / `utf8Dec` model `Buffer.from(·, 'utf8')` and
  `Buffer.toString('utf8')`; decoding inverts encoding.
-/

structure GcmPrims where
  pbkdf2 : String → List Nat → Nat → Nat → String → List Nat
  encCore : List Nat → List Nat → List Nat → List Nat
  decCore : List Nat → List Nat → List Nat → List Nat
  gcmTag : List Nat → List Nat → List Nat → List Nat
  utf8 : String → List Nat
  utf8Dec : List Nat → String
  encCore_length : ∀ k iv p, (encCore k iv p).length = p.length
  encCore_valid : ∀ k iv p, ValidBytes p → ValidBytes (encCore k iv p)
  dec_enc : ∀ k iv p, decCore k iv (encCore k iv p) = p
  gcmTag_length : ∀ k iv c, (gcmTag k iv c).length = 16
  gcmTag_valid : ∀ k iv c, ValidBytes (gcmTag k iv c)
  utf8_valid : ∀ s, ValidBytes (utf8 s)
  utf8Dec_utf8 : ∀ s, utf8Dec (utf8 s) = s

/-! ## The cipher envelope codec (`src/utils/encryptionHelper.ts`) -/

def IV_LENGTH : Nat := 16

def SALT_LENGTH : Nat := 64

def TAG_LENGTH : Nat := 16

def ITERATIONS : Nat := 100000

/-- `encrypt(text, password)` from `encryptionHelper.ts`.  The two
`crypto.randomBytes` draws are threaded in explicitly as `salt` and `iv`;
the rest is the source line by line: derive the key with
`pbkdf2Sync(password, salt, ITERATIONS, 32, 'sha512')`, encrypt the UTF-8
bytes of `text`, read the auth tag, and base64-render
`salt ++ iv ++ tag ++ encrypted`. -/
def encrypt (P : GcmPrims) (salt iv : List Nat) (text password : String) : String :=
  let key := P.pbkdf2 password salt ITERATIONS 32 "sha512"
  let encrypted := P.encCore key iv (P.utf8 text)
  let tag := P.gcmTag key iv encrypted
  base64Encode (salt ++ iv ++ tag ++ encrypted)

/-- `data.subarray(start, stop)` on a buffer: Node clamps both indices to
the buffer length, which is what `drop`/`take` do. -/
def subarray (data : List Nat) (start stop : Nat) : List Nat :=
  (data.drop start).take (stop - start)

/-- The distinct failure points of `decrypt`.  The source has no error
handling of its own: every failure is a platform exception.
`invalidIV` models `createDecipheriv` rejecting an empty GCM IV,
`invalidAuthTagLength` models `setAuthTag` rejecting a tag whose length
is not a legal GCM tag length, and `authenticationFailed` models
`decipher.final()` throwing when the tag does not verify. -/
inductive DecryptError where
  | invalidIV : DecryptError
  | invalidAuthTagLength : DecryptError
  | authenticationFailed : DecryptError
deriving DecidableEq

/-- The message of the platform exception each failure raises. -/
def errMessage : DecryptError → String
  | .invalidIV => "Invalid initialization vector"
  | .invalidAuthTagLength => "Invalid authentication tag length"
  | .authenticationFailed => "Unsupported state or unable to authenticate data"

/-- Tag lengths `setAuthTag` accepts for GCM (bytes). -/
def validGcmTagLength (n : Nat) : Bool :=
  n == 4 || n == 8 || (decide (12 ≤ n) && decide (n ≤ 16))

/-- `decrypt(encryptedData, password)` from `encryptionHelper.ts`,
instrumented: the second component records the `(password, salt)`
arguments of every `pbkdf2Sync` call performed.

Source order: base64-decode (`Buffer.from` never throws), slice
salt/iv/tag/ciphertext at fixed offsets (`subarray` clamps), derive the
key — `pbkdf2Sync` runs unconditionally — then `createDecipheriv`
(throws on an empty IV), `setAuthTag` (throws on an illegal tag length),
and `update`/`final`, which authenticate by comparing the supplied tag
against the recomputed tag truncated to the supplied length and return
the UTF-8 decoding of the plaintext on success. -/
def decryptT (P : GcmPrims) (encryptedData password : String) :
    Except DecryptError String × List (String × List Nat) :=
  let data := base64Decode encryptedData
  let salt := subarray data 0 SALT_LENGTH
  let iv := subarray data SALT_LENGTH (SALT_LENGTH + IV_LENGTH)
  let tag := subarray data (SALT_LENGTH + IV_LENGTH) (SALT_LENGTH + IV_LENGTH + TAG_LENGTH)
  let encrypted := data.drop (SALT_LENGTH + IV_LENGTH + TAG_LENGTH)
  let key := P.pbkdf2 password salt ITERATIONS 32 "sha512"
  let result : Except DecryptError String :=
    if iv.length = 0 then .error .invalidIV
    else if ¬ validGcmTagLength tag.length then .error .invalidAuthTagLength
    else if tag = (P.gcmTag key iv encrypted).take tag.length then
      .ok (P.utf8Dec (P.decCore key iv encrypted))
    else .error .authenticationFailed
  (result, [(password, salt)])

/-- `decrypt` proper: the result component of `decryptT`. -/
def decrypt (P : GcmPrims) (encryptedData password : String) :
    Except DecryptError String :=
  (decryptT P encryptedData password).1

/-! ## Envelope slicing -/

theorem validBytes_append {a b : List Nat} (ha : ValidBytes a)
    (hb : ValidBytes b) : ValidBytes (a ++ b) := by
  intro x hx
  rcases List.mem_append.mp hx with h | h
  · exact ha x h
  · exact hb x h

theorem envelope_salt_slice (salt iv tag c : List Nat) (hs : salt.length = 64) :
    subarray (salt ++ iv ++ tag ++ c) 0 SALT_LENGTH = salt := by
  rw [subarray]
  simp only [List.drop_zero, SALT_LENGTH, Nat.sub_zero]
  rw [List.append_assoc, List.append_assoc, ← hs, List.take_left]

theorem envelope_iv_slice (salt iv tag c : List Nat) (hs : salt.length = 64)
    (hiv : iv.length = 16) :
    subarray (salt ++ iv ++ tag ++ c) SALT_LENGTH (SALT_LENGTH + IV_LENGTH) = iv := by
  rw [subarray]
  simp only [SALT_LENGTH, IV_LENGTH]
  norm_num
  rw [← hs, List.drop_left, ← hiv, List.take_left]

theorem envelope_tag_slice (salt iv tag c : List Nat) (hs : salt.length = 64)
    (hiv : iv.length = 16) (ht : tag.length = 16) :
    subarray (salt ++ iv ++ tag ++ c) (SALT_LENGTH + IV_LENGTH)
      (SALT_LENGTH + IV_LENGTH + TAG_LENGTH) = tag := by
  rw [subarray]
  simp only [SALT_LENGTH, IV_LENGTH, TAG_LENGTH]
  norm_num
  rw [← List.append_assoc salt iv (tag ++ c)]
  have h80 : (salt ++ iv).length = 80 := by simp [hs, hiv]
  rw [← h80, List.drop_left, ← ht, List.take_left]

theorem envelope_cipher_slice (salt iv tag c : List Nat) (hs : salt.length = 64)
    (hiv : iv.length = 16) (ht : tag.length = 16) :
    (salt ++ iv ++ tag ++ c).drop (SALT_LENGTH + IV_LENGTH + TAG_LENGTH) = c := by
  simp only [SALT_LENGTH, IV_LENGTH, TAG_LENGTH]
  norm_num
  rw [← List.append_assoc salt iv (tag ++ c), ← List.append_assoc (salt ++ iv) tag c]
  have h96 : ((salt ++ iv) ++ tag).length = 96 := by simp [hs, hiv, ht]
  rw [← h96, List.drop_left]

/-- What `decrypt` does on a well-formed envelope `salt ++ iv ++ tag ++ c`:
it re-derives the key from the salt with the same KDF parameters as
`encrypt`, recomputes the GCM tag of the ciphertext, and either returns
the decrypted plaintext (tag verifies) or fails with the single opaque
authentication error (tag does not verify). -/
theorem decrypt_envelope (P : GcmPrims) (password : String)
    (salt iv tag c : List Nat)
    (hs : salt.length = 64) (hiv : iv.length = 16) (ht : tag.length = 16)
    (hvs : ValidBytes salt) (hviv : ValidBytes iv) (hvt : ValidBytes tag)
    (hvc : ValidBytes c) :
    decrypt P (base64Encode (salt ++ iv ++ tag ++ c)) password =
      if tag = P.gcmTag (P.pbkdf2 password salt ITERATIONS 32 "sha512") iv c then
        .ok (P.utf8Dec (P.decCore (P.pbkdf2 password salt ITERATIONS 32 "sha512") iv c))
      else .error .authenticationFailed := by
  have hv : ValidBytes (salt ++ iv ++ tag ++ c) :=
    validBytes_append (validBytes_append (validBytes_append hvs hviv) hvt) hvc
  rw [decrypt, decryptT]
  simp only
  rw [base64_decode_encode _ hv]
  rw [envelope_salt_slice salt iv tag c hs, envelope_iv_slice salt iv tag c hs hiv,
    envelope_tag_slice salt iv tag c hs hiv ht, envelope_cipher_slice salt iv tag c hs hiv ht]
  rw [if_neg (by rw [hiv]; omega)]
  rw [if_neg (by rw [ht]; simp [validGcmTagLength])]
  rw [ht, ← P.gcmTag_length (P.pbkdf2 password salt ITERATIONS 32 "sha512") iv c,
    List.take_length]

/-! ## A concrete executable instance of the primitives

`toyPrims` is not AES-256-GCM; it is a small instance satisfying the same
contracts, used to evaluate the theorems on concrete inputs. -/

theorem char_toNat_lt (c : Char) : c.toNat < 1114112 := by
  have h := c.valid
  rcases h with h | ⟨h1, h2⟩
  · exact Nat.lt_trans h (by norm_num)
  · exact h2

/-- Three-byte big-endian rendering of a character's code point. -/
def charBytes (c : Char) : List Nat :=
  [c.toNat / 65536, c.toNat / 256 % 256, c.toNat % 256]

def toyUtf8 (s : String) : List Nat := (s.data.map charBytes).flatten

def toyChars : List Nat → List Char
  | b0 :: b1 :: b2 :: rest => Char.ofNat (b0 * 65536 + b1 * 256 + b2) :: toyChars rest
  | _ => []

def toyUtf8Dec (bs : List Nat) : String := String.mk (toyChars bs)

theorem toyChars_flatten (cs : List Char) :
    toyChars ((cs.map charBytes).flatten) = cs := by
  induction cs with
  | nil => rfl
  | cons c cs ih =>
      simp only [List.map_cons, List.flatten_cons, charBytes, List.cons_append,
        List.nil_append, toyChars, List.cons.injEq]
      have hn : c.toNat / 65536 * 65536 + c.toNat / 256 % 256 * 256 + c.toNat % 256
          = c.toNat := by omega
      rw [hn, Char.ofNat_toNat]
      exact ⟨rfl, ih⟩

def toyPrims : GcmPrims where
  pbkdf2 := fun pw salt _ len _ =>
    ((pw.data.map Char.toNat ++ salt).map (· % 256) ++ List.replicate len 0).take len
  encCore := fun _ _ p => p
  decCore := fun _ _ c => c
  gcmTag := fun key iv c => ((c ++ key ++ iv ++ List.replicate 16 0).take 16).map (· % 256)
  utf8 := toyUtf8
  utf8Dec := toyUtf8Dec
  encCore_length := fun _ _ _ => rfl
  encCore_valid := fun _ _ _ h => h
  dec_enc := fun _ _ _ => rfl
  gcmTag_length := by
    intro k iv c
    simp [List.length_take]
    omega
  gcmTag_valid := by
    intro k iv c b hb
    simp only [List.mem_map] at hb
    obtain ⟨a, _, ha⟩ := hb
    omega
  utf8_valid := by
    intro s b hb
    simp only [toyUtf8, List.mem_flatten, List.mem_map] at hb
    obtain ⟨l, ⟨c, _, hc⟩, hbl⟩ := hb
    subst hc
    have := char_toNat_lt c
    simp only [charBytes, List.mem_cons, List.not_mem_nil, or_false] at hbl
    rcases hbl with h | h | h <;> omega
  utf8Dec_utf8 := by
    intro s
    rw [toyUtf8, toyUtf8Dec, toyChars_flatten]

/-! ## Substring occurrence (for statements about error messages) -/

/-- Whether the first character list starts the second. -/
def leadsList : List Char → List Char → Bool
  | [], _ => true
  | _ :: _, [] => false
  | a :: as, b :: bs => a == b && leadsList as bs

/-- Whether the first character list occurs contiguously in the second. -/
def segIn (n : List Char) : List Char → Bool
  | [] => leadsList n []
  | c :: rest => leadsList n (c :: rest) || segIn n rest

/-- Substring occurrence on strings. -/
def occursStr (needle haystack : String) : Bool := segIn needle.data haystack.data

theorem leadsList_append (n t : List Char) : leadsList n (n ++ t) = true := by
  induction n with
  | nil => rfl
  | cons a as ih => simp [leadsList, ih]

theorem segIn_append_left (n : List Char) :
    ∀ s rest, segIn n rest = true → segIn n (s ++ rest) = true := by
  intro s
  induction s with
  | nil => intro rest h; simpa using h
  | cons c cs ih =>
      intro rest h
      rw [List.cons_append, segIn]
      rw [ih rest h]
      simp

theorem segIn_middle (n s t : List Char) : segIn n (s ++ (n ++ t)) = true := by
  apply segIn_append_left
  cases n with
  | nil => cases t <;> simp [segIn, leadsList]
  | cons a as =>
      rw [List.cons_append, segIn]
      have h : leadsList (a :: as) (a :: (as ++ t)) = true := by
        rw [← List.cons_append]
        exact leadsList_append (a :: as) t
      rw [h]
      simp

theorem occursStr_middle (needle pre post : String) :
    occursStr needle (pre ++ needle ++ post) = true := by
  have h : (pre ++ needle ++ post).data = pre.data ++ (needle.data ++ post.data) := by
    simp
  rw [occursStr, h]
  exact segIn_middle needle.data pre.data post.data


/-- JavaScript `String.prototype.startsWith`, as a character-prefix test
(the platform library's own `startsWith` is opaque to reduction, this one
is executable; the semantics is the same prefix test). -/
def strStarts (s pre : String) : Bool := leadsList pre.data s.data

/-! ## The config secret resolver (`src/utils/jsonhelper.ts`) -/

/-- Untyped JSON values, the shape `JSON.parse` produces. -/
inductive Json where
  | str : String → Json
  | num : Int → Json
  | bool : Bool → Json
  | null : Json
  | arr : List Json → Json
  | obj : List (String × Json) → Json

/-- JavaScript truthiness of a JSON value. -/
def truthy : Json → Bool
  | .str s => s != ""
  | .num n => n != 0
  | .bool b => b
  | .null => false
  | .arr _ => true
  | .obj _ => true

def credentialsKey : String := "credentials"

def passwordKey : String := "password"

/-- The literal marker prefix flagging an encrypted password field. -/
def marker : String := "encrypted:"

/-- Property access on a parsed JSON object (first binding of the key;
`JSON.parse` binds each key once). -/
def getProp (k : String) : List (String × Json) → Option Json
  | [] => none
  | e :: rest => if e.1 = k then some e.2 else getProp k rest

/-- The optional-chaining access `data[env]?.credentials?.password`:
`some` exactly when the value is an object whose `credentials` field is an
object carrying a `password` field. -/
def credentialsPassword : Json → Option Json
  | .obj fields =>
      match getProp credentialsKey fields with
      | some (.obj cfields) => getProp passwordKey cfields
      | _ => none
  | _ => none

/-- Property assignment on an object's field list: replaces the first
binding of `k` (objects from `JSON.parse` bind each key once). -/
def setField : List (String × Json) → String → Json → List (String × Json)
  | [], _, _ => []
  | e :: rest, k, v => if e.1 = k then (k, v) :: rest else e :: setField rest k v

/-- The assignment `data[env].credentials.password = decrypted`. -/
def setCredentialsPassword (v : Json) (newPw : Json) : Json :=
  match v with
  | .obj fields =>
      .obj (fields.map fun e =>
        if e.1 = credentialsKey then
          (e.1, match e.2 with
                | .obj cfields => Json.obj (setField cfields passwordKey newPw)
                | other => other)
        else e)
  | other => other

/-- The two error identities `readJsonFile` can throw, each carrying the
thrown `Error`'s message string; `decryptionFailed` also records which
environment entry failed and the underlying codec error it wraps. -/
inductive LoadError where
  | missingEncryptionKey : String → LoadError
  | decryptionFailed : String → DecryptError → String → LoadError

/-- Message of the error thrown when `ENCRYPTION_KEY` is not truthy. -/
def missingKeyMessage : String :=
  "ENCRYPTION_KEY environment variable is required to decrypt passwords. " ++
  "Set it with: export ENCRYPTION_KEY=\"your-key-here\""

/-- Message of the error wrapping a failed decrypt for entry `env`. -/
def decryptFailedMessage (env : String) (e : DecryptError) : String :=
  "Failed to decrypt password for " ++ env ++ " environment. " ++
  "Verify ENCRYPTION_KEY is correct. Error: " ++ errMessage e

/-- The body of the `Object.keys(data).forEach` callback for one
environment entry, returning the transformed value (or the thrown error)
and the number of `decrypt` calls it performed. -/
def resolveEntry (P : GcmPrims) (encryptionKey : Option String) (env : String)
    (v : Json) : Except LoadError Json × Nat :=
  match credentialsPassword v with
  | some passwordJson =>
      if truthy passwordJson then
        match passwordJson with
        | .str password =>
            if strStarts password marker then
              match encryptionKey with
              | none => (.error (.missingEncryptionKey missingKeyMessage), 0)
              | some key =>
                  if key = "" then
                    (.error (.missingEncryptionKey missingKeyMessage), 0)
                  else
                    match decrypt P (password.drop marker.length) key with
                    | .ok plain =>
                        (.ok (setCredentialsPassword v (.str plain)), 1)
                    | .error e =>
                        (.error (.decryptionFailed env e (decryptFailedMessage env e)), 1)
            else (.ok v, 0)
        | _ => (.ok v, 0)
      else (.ok v, 0)
  | none => (.ok v, 0)

/-- The forEach loop over an object's entries: processes entries in
order, stopping at the first thrown error (later entries untouched),
accumulating the decrypt-call count. -/
def loadEntries (P : GcmPrims) (encryptionKey : Option String) :
    List (String × Json) → Except LoadError (List (String × Json)) × Nat
  | [] => (.ok [], 0)
  | e :: rest =>
      match resolveEntry P encryptionKey e.1 e.2 with
      | (.error err, n) => (.error err, n)
      | (.ok v', n) =>
          match loadEntries P encryptionKey rest with
          | (.ok rest', m) => (.ok ((e.1, v') :: rest'), n + m)
          | (.error err, m) => (.error err, n + m)

/-- The same loop when the parsed document is an array (`typeof` of an
array is also `'object'`, and `Object.keys` yields its index strings). -/
def loadArr (P : GcmPrims) (encryptionKey : Option String) :
    Nat → List Json → Except LoadError (List Json) × Nat
  | _, [] => (.ok [], 0)
  | i, v :: rest =>
      match resolveEntry P encryptionKey (toString i) v with
      | (.error err, n) => (.error err, n)
      | (.ok v', n) =>
          match loadArr P encryptionKey (i + 1) rest with
          | (.ok rest', m) => (.ok (v' :: rest'), n + m)
          | (.error err, m) => (.error err, n + m)

/-- The in-memory core of `readJsonFile`: everything after `JSON.parse`
(the file read and parse are I/O glue outside the core).
`encryptionKey` models `process.env.ENCRYPTION_KEY`, `none` meaning the
variable is unset; the guard `data && typeof data === 'object'` passes
non-objects straight through.  The second component counts the `decrypt`
calls performed. -/
def readJsonFileCore (P : GcmPrims) (encryptionKey : Option String)
    (data : Json) : Except LoadError Json × Nat :=
  match data with
  | .obj fields =>
      match loadEntries P encryptionKey fields with
      | (.ok fields', n) => (.ok (.obj fields'), n)
      | (.error e, n) => (.error e, n)
  | .arr elems =>
      match loadArr P encryptionKey 0 elems with
      | (.ok elems', n) => (.ok (.arr elems'), n)
      | (.error e, n) => (.error e, n)
  | other => (.ok other, 0)

/-- Whether an entry value would take the decrypt path: a truthy string
password bearing the marker prefix. -/
def passwordMarked (v : Json) : Bool :=
  match credentialsPassword v with
  | some pw =>
      truthy pw && (match pw with | .str p => strStarts p marker | _ => false)
  | none => false

/-- Whether a document contains at least one marker-bearing password. -/
def hasEncryptedField : Json → Bool
  | .obj fields => fields.any fun e => passwordMarked e.2
  | .arr elems => elems.any passwordMarked
  | _ => false

/-! ## The offline password-encryption CLI (`encrypt-password` script) -/

/-- Output lines the CLI prints once both prompts are answered: the error
path when either input is empty, otherwise the success lines in print
order (blank-line separators and the banner omitted).  `salt` and `iv`
are the `randomBytes` draws of the script's local `encrypt`. -/
def cliOutput (P : GcmPrims) (salt iv : List Nat)
    (password encryptionKey : String) : List String :=
  if password == "" || encryptionKey == "" then
    ["Error: Both password and encryption key are required"]
  else
    ["✓ Password encrypted successfully!",
     "Add this to config.json:",
     "\"password\": \"encrypted:" ++ encrypt P salt iv password encryptionKey ++ "\"",
     "Set this environment variable locally:",
     "export ENCRYPTION_KEY=\"" ++ encryptionKey ++ "\"",
     "For GitHub Actions, add ENCRYPTION_KEY to repository secrets."]

/-! ## Shared concrete inputs for witnesses -/

def salt0 : List Nat := List.replicate 64 0

def iv0 : List Nat := List.replicate 16 0

def iv1 : List Nat := List.replicate 16 1

/-! ## Claims about the codec -/

/-- What `decryptT` does on any base64 input decoding to at least 96
bytes: slice at the fixed offsets, re-derive the key from the first 64
bytes with the same KDF parameters, verify the full 16-byte tag. -/
theorem decryptT_long (P : GcmPrims) (password : String) (data : List Nat)
    (hlen : 96 ≤ data.length) (hv : ValidBytes data) :
    decryptT P (base64Encode data) password =
      ((if (data.drop 80).take 16 =
           P.gcmTag (P.pbkdf2 password (data.take 64) ITERATIONS 32 "sha512")
             ((data.drop 64).take 16) (data.drop 96) then
          .ok (P.utf8Dec
            (P.decCore (P.pbkdf2 password (data.take 64) ITERATIONS 32 "sha512")
              ((data.drop 64).take 16) (data.drop 96)))
        else .error .authenticationFailed),
       [(password, data.take 64)]) := by
  rw [decryptT]
  simp only [subarray, SALT_LENGTH, IV_LENGTH, TAG_LENGTH]
  rw [base64_decode_encode _ hv]
  norm_num
  rw [if_neg (by omega)]
  have hmin : (16 : Nat) ⊓ (data.length - 80) = 16 := by
    rw [Nat.min_eq_left]
    omega
  rw [if_neg (by rw [hmin]; simp [validGcmTagLength])]
  rw [hmin, List.take_of_length_le (show
    (P.gcmTag (P.pbkdf2 password (data.take 64) ITERATIONS 32 "sha512")
      ((data.drop 64).take 16) (data.drop 96)).length ≤ 16 from
    by simp [P.gcmTag_length])]

/-- Round-trip of the codec, shared infrastructure. -/
theorem encrypt_roundtrip (P : GcmPrims) (salt iv : List Nat)
    (hs : salt.length = 64) (hiv : iv.length = 16)
    (hvs : ValidBytes salt) (hviv : ValidBytes iv)
    (text password : String) :
    decrypt P (encrypt P salt iv text password) password = .ok text := by
  rw [encrypt]
  rw [decrypt_envelope P password salt iv _ _ hs hiv
    (P.gcmTag_length _ _ _) hvs hviv (P.gcmTag_valid _ _ _)
    (P.encCore_valid _ _ _ (P.utf8_valid text))]
  rw [if_pos rfl, P.dec_enc, P.utf8Dec_utf8]

/-- C1.  Round-trip: for every plaintext string `p` (the empty string and
non-ASCII strings included — strings pass through the platform UTF-8
codec, whose contract `utf8Dec_utf8` covers all of them) and every
passphrase `k`, `decrypt (encrypt p k) k` returns `p`; proved for every
primitive instance satisfying the AES-256-GCM/PBKDF2/UTF-8 contracts and
every salt and iv of the drawn sizes. -/
theorem c1_roundtrip (P : GcmPrims) (salt iv : List Nat)
    (hs : salt.length = 64) (hiv : iv.length = 16)
    (hvs : ValidBytes salt) (hviv : ValidBytes iv)
    (text password : String) :
    decrypt P (encrypt P salt iv text password) password = .ok text :=
  encrypt_roundtrip P salt iv hs hiv hvs hviv text password

/-- Witness for C1: a concrete round-trip through the toy instance, with
a non-ASCII plaintext. -/
theorem c1_roundtrip_witness :
    decrypt toyPrims (encrypt toyPrims salt0 iv0 "pä§s" "key1") "key1" = .ok "pä§s" :=
  c1_roundtrip toyPrims salt0 iv0 (by simp [salt0]) (by simp [iv0])
    (by decide) (by decide) "pä§s" "key1"

/-- C4.  Envelope format and KDF contract: `encrypt` returns the base64
encoding of `salt(64 bytes) ++ iv(16 bytes) ++ auth_tag(16 bytes) ++
ciphertext`, with the 256-bit (32-byte) key derived from the passphrase
and salt by the password-based KDF at 100000 iterations with the
512-bit-output hash "sha512"; `decrypt` slices exactly the offsets
0–64, 64–80, 80–96 and 96–end and re-derives the key with identical KDF
parameters. -/
theorem c4_envelope_format (P : GcmPrims) (salt iv : List Nat)
    (hs : salt.length = 64) (hiv : iv.length = 16)
    (hvs : ValidBytes salt) (hviv : ValidBytes iv)
    (text password : String) (key cipher env : List Nat)
    (hkey : key = P.pbkdf2 password salt 100000 32 "sha512")
    (hcipher : cipher = P.encCore key iv (P.utf8 text))
    (henv : env = base64Decode (encrypt P salt iv text password)) :
    env = salt ++ iv ++ P.gcmTag key iv cipher ++ cipher ∧
    env.take 64 = salt ∧
    (env.drop 64).take 16 = iv ∧
    (env.drop 80).take 16 = P.gcmTag key iv cipher ∧
    env.drop 96 = cipher ∧
    env.length = 96 + (P.utf8 text).length ∧
    (∀ data : List Nat, 96 ≤ data.length → ValidBytes data →
      decryptT P (base64Encode data) password =
        ((if (data.drop 80).take 16 =
             P.gcmTag (P.pbkdf2 password (data.take 64) 100000 32 "sha512")
               ((data.drop 64).take 16) (data.drop 96) then
            .ok (P.utf8Dec
              (P.decCore (P.pbkdf2 password (data.take 64) 100000 32 "sha512")
                ((data.drop 64).take 16) (data.drop 96)))
          else .error .authenticationFailed),
         [(password, data.take 64)])) := by
  subst hkey
  subst hcipher
  subst henv
  set K := P.pbkdf2 password salt 100000 32 "sha512" with hK
  set C := P.encCore K iv (P.utf8 text) with hC
  have hcv : ValidBytes C := P.encCore_valid _ _ _ (P.utf8_valid text)
  have htv : ValidBytes (P.gcmTag K iv C) := P.gcmTag_valid _ _ _
  have htl : (P.gcmTag K iv C).length = 16 := P.gcmTag_length _ _ _
  have hE : base64Decode (encrypt P salt iv text password) =
      salt ++ iv ++ P.gcmTag K iv C ++ C := by
    rw [encrypt]
    exact base64_decode_encode _
      (validBytes_append (validBytes_append (validBytes_append hvs hviv) htv) hcv)
  refine ⟨hE, ?_, ?_, ?_, ?_, ?_, ?_⟩
  · rw [hE]
    have h := envelope_salt_slice salt iv (P.gcmTag K iv C) C hs
    simpa [subarray, SALT_LENGTH] using h
  · rw [hE]
    have h := envelope_iv_slice salt iv (P.gcmTag K iv C) C hs hiv
    simpa [subarray, SALT_LENGTH, IV_LENGTH] using h
  · rw [hE]
    have h := envelope_tag_slice salt iv (P.gcmTag K iv C) C hs hiv htl
    simpa [subarray, SALT_LENGTH, IV_LENGTH, TAG_LENGTH] using h
  · rw [hE]
    have h := envelope_cipher_slice salt iv (P.gcmTag K iv C) C hs hiv htl
    simpa [SALT_LENGTH, IV_LENGTH, TAG_LENGTH] using h
  · rw [hE]
    simp [hs, hiv, htl, hC, P.encCore_length]
    omega
  · exact fun data h1 h2 => decryptT_long P password data h1 h2

/-- Witness for C4 at concrete inputs through the toy instance. -/
theorem c4_envelope_format_witness :
    (base64Decode (encrypt toyPrims salt0 iv0 "pw" "key")).take 64 = salt0 ∧
    ((base64Decode (encrypt toyPrims salt0 iv0 "pw" "key")).drop 64).take 16 = iv0 ∧
    (base64Decode (encrypt toyPrims salt0 iv0 "pw" "key")).length =
      96 + (toyPrims.utf8 "pw").length := by
  have h := c4_envelope_format toyPrims salt0 iv0 (by simp [salt0]) (by simp [iv0])
    (by decide) (by decide) "pw" "key"
    (toyPrims.pbkdf2 "key" salt0 100000 32 "sha512")
    (toyPrims.encCore (toyPrims.pbkdf2 "key" salt0 100000 32 "sha512") iv0
      (toyPrims.utf8 "pw"))
    (base64Decode (encrypt toyPrims salt0 iv0 "pw" "key")) rfl rfl rfl
  exact ⟨h.2.1, h.2.2.1, h.2.2.2.2.2.1⟩

/-! ## Tampering helpers -/

theorem validBytes_set {l : List Nat} (hl : ValidBytes l) {j b : Nat}
    (hb : b < 256) : ValidBytes (l.set j b) := by
  intro x hx
  rcases List.mem_or_eq_of_mem_set hx with h | h
  · exact hl x h
  · omega

theorem getD_set_self (l : List Nat) (j b : Nat) (hj : j < l.length) :
    (l.set j b).getD j 0 = b := by
  induction l generalizing j with
  | nil => simp at hj
  | cons a as ih =>
      cases j with
      | zero => simp
      | succ j => simpa using ih j (by simpa using hj)

theorem set_ne_self (l : List Nat) (j b : Nat) (hj : j < l.length)
    (hne : b ≠ l.getD j 0) : l.set j b ≠ l := by
  intro h
  have hc := congrArg (fun l' => l'.getD j 0) h
  simp only at hc
  rw [getD_set_self l j b hj] at hc
  exact hne hc

/-- C2.  Authentication failure is a single opaque error.  With the key
derived from the wrong passphrase the recomputed tag does not verify and
`decrypt` fails with `authenticationFailed`; flipping any single byte of
the tag region of a valid envelope fails with the same
`authenticationFailed`, unconditionally; flipping any single byte of the
ciphertext region changes the recomputed tag and again fails with the
same `authenticationFailed`.  All three failures are the very same
payload-free error value, so nothing distinguishes a wrong key from
corrupted data; and `decrypt_envelope` shows a plaintext is returned only
when the tag verifies, never an incorrect one. -/
theorem c2_auth_failures (P : GcmPrims) (salt iv : List Nat)
    (hs : salt.length = 64) (hiv : iv.length = 16)
    (hvs : ValidBytes salt) (hviv : ValidBytes iv)
    (text k1 k2 : String) (hkk : k1 ≠ k2)
    (key1 key2 cipher tag : List Nat)
    (hkey1 : key1 = P.pbkdf2 k1 salt ITERATIONS 32 "sha512")
    (hkey2 : key2 = P.pbkdf2 k2 salt ITERATIONS 32 "sha512")
    (hcipher : cipher = P.encCore key1 iv (P.utf8 text))
    (htag : tag = P.gcmTag key1 iv cipher) :
    (P.gcmTag key2 iv cipher ≠ tag →
      decrypt P (encrypt P salt iv text k1) k2 = .error .authenticationFailed) ∧
    (∀ j b', j < 16 → b' < 256 → b' ≠ tag.getD j 0 →
      decrypt P (base64Encode (salt ++ iv ++ tag.set j b' ++ cipher)) k1 =
        .error .authenticationFailed) ∧
    (∀ j b', j < cipher.length → b' < 256 → b' ≠ cipher.getD j 0 →
      P.gcmTag key1 iv (cipher.set j b') ≠ tag →
      decrypt P (base64Encode (salt ++ iv ++ tag ++ cipher.set j b')) k1 =
        .error .authenticationFailed) := by
  subst hkey1
  subst hkey2
  subst hcipher
  subst htag
  set K1 := P.pbkdf2 k1 salt ITERATIONS 32 "sha512" with hK1
  set K2 := P.pbkdf2 k2 salt ITERATIONS 32 "sha512" with hK2
  set C := P.encCore K1 iv (P.utf8 text) with hC
  set T := P.gcmTag K1 iv C with hT
  have hcv : ValidBytes C := P.encCore_valid _ _ _ (P.utf8_valid text)
  have htv : ValidBytes T := P.gcmTag_valid _ _ _
  have htl : T.length = 16 := P.gcmTag_length _ _ _
  refine ⟨?_, ?_, ?_⟩
  · intro hne2
    rw [encrypt]
    rw [decrypt_envelope P k2 salt iv _ _ hs hiv htl hvs hviv htv hcv]
    exact if_neg (fun hEq => hne2 hEq.symm)
  · intro j b' hj hb' hbne
    rw [decrypt_envelope P k1 salt iv _ _ hs hiv (by simp [htl]) hvs hviv
      (validBytes_set htv hb') hcv]
    refine if_neg (fun hEq => ?_)
    exact set_ne_self T j b' (by omega) hbne hEq
  · intro j b' hj hb' hbne htagne
    rw [decrypt_envelope P k1 salt iv _ _ hs hiv htl hvs hviv htv
      (validBytes_set hcv hb')]
    exact if_neg (fun hEq => htagne hEq.symm)

def toyKey1 : List Nat := toyPrims.pbkdf2 "k1" salt0 ITERATIONS 32 "sha512"

def toyKey2 : List Nat := toyPrims.pbkdf2 "k2" salt0 ITERATIONS 32 "sha512"

def toyCipher : List Nat := toyPrims.encCore toyKey1 iv0 (toyPrims.utf8 "ab")

def toyTag : List Nat := toyPrims.gcmTag toyKey1 iv0 toyCipher

/-- Witness for C2: concrete wrong-key rejection and one-byte flips in
the tag and ciphertext regions through the toy instance. -/
theorem c2_auth_failures_witness :
    decrypt toyPrims (encrypt toyPrims salt0 iv0 "ab" "k1") "k2" =
      .error .authenticationFailed ∧
    decrypt toyPrims (base64Encode (salt0 ++ iv0 ++ toyTag.set 0 255 ++ toyCipher)) "k1" =
      .error .authenticationFailed ∧
    decrypt toyPrims (base64Encode (salt0 ++ iv0 ++ toyTag ++ toyCipher.set 0 255)) "k1" =
      .error .authenticationFailed := by
  have h := c2_auth_failures toyPrims salt0 iv0 (by simp [salt0]) (by simp [iv0])
    (by decide) (by decide) "ab" "k1" "k2" (by decide)
    toyKey1 toyKey2 toyCipher toyTag rfl rfl rfl rfl
  exact ⟨h.1 (by decide),
    h.2.1 0 255 (by decide) (by decide) (by decide),
    h.2.2 0 255 (by decide) (by decide) (by decide) (by decide)⟩

/-- The first 80 bytes of an envelope are the salt and iv. -/
theorem take80_envelope (s i t c : List Nat) (hs : s.length = 64)
    (hi : i.length = 16) : (s ++ i ++ t ++ c).take 80 = s ++ i := by
  rw [List.append_assoc (s ++ i) t c]
  have h : (s ++ i).length = 80 := by simp [hs, hi]
  rw [← h, List.take_left]

/-- C8.  Non-determinism of encode: two calls of `encrypt` on the same
plaintext and passphrase whose independently drawn randomness differs
(in the salt or in the iv) produce different envelope texts, and both
envelopes decrypt back to the plaintext under the passphrase. -/
theorem c8_nondeterminism (P : GcmPrims) (saltA ivA saltB ivB : List Nat)
    (hsA : saltA.length = 64) (hivA : ivA.length = 16)
    (hvsA : ValidBytes saltA) (hvivA : ValidBytes ivA)
    (hsB : saltB.length = 64) (hivB : ivB.length = 16)
    (hvsB : ValidBytes saltB) (hvivB : ValidBytes ivB)
    (text password : String) (hne : saltA ≠ saltB ∨ ivA ≠ ivB) :
    encrypt P saltA ivA text password ≠ encrypt P saltB ivB text password ∧
    decrypt P (encrypt P saltA ivA text password) password = .ok text ∧
    decrypt P (encrypt P saltB ivB text password) password = .ok text := by
  refine ⟨?_, encrypt_roundtrip P saltA ivA hsA hivA hvsA hvivA text password,
    encrypt_roundtrip P saltB ivB hsB hivB hvsB hvivB text password⟩
  intro hEq
  simp only [encrypt] at hEq
  have hvA : ValidBytes (saltA ++ ivA ++
      P.gcmTag (P.pbkdf2 password saltA ITERATIONS 32 "sha512") ivA
        (P.encCore (P.pbkdf2 password saltA ITERATIONS 32 "sha512") ivA (P.utf8 text)) ++
      P.encCore (P.pbkdf2 password saltA ITERATIONS 32 "sha512") ivA (P.utf8 text)) :=
    validBytes_append (validBytes_append (validBytes_append hvsA hvivA)
      (P.gcmTag_valid _ _ _)) (P.encCore_valid _ _ _ (P.utf8_valid text))
  have hvB : ValidBytes (saltB ++ ivB ++
      P.gcmTag (P.pbkdf2 password saltB ITERATIONS 32 "sha512") ivB
        (P.encCore (P.pbkdf2 password saltB ITERATIONS 32 "sha512") ivB (P.utf8 text)) ++
      P.encCore (P.pbkdf2 password saltB ITERATIONS 32 "sha512") ivB (P.utf8 text)) :=
    validBytes_append (validBytes_append (validBytes_append hvsB hvivB)
      (P.gcmTag_valid _ _ _)) (P.encCore_valid _ _ _ (P.utf8_valid text))
  have hbytes := base64Encode_injOn hvA hvB hEq
  have h80 := congrArg (fun l => List.take 80 l) hbytes
  simp only at h80
  rw [take80_envelope _ _ _ _ hsA hivA, take80_envelope _ _ _ _ hsB hivB] at h80
  rcases List.append_inj h80 (by rw [hsA, hsB]) with ⟨hsalt, hiv⟩
  rcases hne with h | h
  · exact h hsalt
  · exact h hiv

/-- Witness for C8: same plaintext and passphrase, distinct ivs. -/
theorem c8_nondeterminism_witness :
    encrypt toyPrims salt0 iv0 "ab" "pw" ≠ encrypt toyPrims salt0 iv1 "ab" "pw" ∧
    decrypt toyPrims (encrypt toyPrims salt0 iv0 "ab" "pw") "pw" = .ok "ab" ∧
    decrypt toyPrims (encrypt toyPrims salt0 iv1 "ab" "pw") "pw" = .ok "ab" :=
  c8_nondeterminism toyPrims salt0 iv0 salt0 iv1 (by simp [salt0]) (by simp [iv0])
    (by decide) (by decide) (by simp [salt0]) (by simp [iv1]) (by decide) (by decide)
    "ab" "pw" (.inr (by decide))

/-- Counterexample to C3 as stated.  The empty input string base64-decodes
to 0 bytes (fewer than 96), yet `decrypt` does not fail with a
malformed-envelope error before key derivation: the instrumented decoder
records that `pbkdf2Sync` was called (on the empty salt slice), and the
failure actually reported is the cipher-layer invalid-IV exception — the
source performs no base64-validity or length check at all. -/
theorem c3_counterexample :
    (base64Decode "").length < 96 ∧
    (decryptT toyPrims "" "key").2 = [("key", [])] ∧
    (decryptT toyPrims "" "key").1 = .error .invalidIV := by
  refine ⟨by decide, rfl, rfl⟩

/-- C3 amended: `decrypt` has no malformed-envelope check; it derives the
key unconditionally (one `pbkdf2Sync` call on the first 64 decoded
bytes), and an input decoding to fewer than 96 bytes then fails inside
the cipher layer: with `invalidIV` when at most 64 bytes remain (empty
iv slice), with `invalidAuthTagLength` when 64–80 bytes (empty tag
slice), and beyond that it can only return a plaintext if the short tag
slice has a legal GCM tag length and verifies against the recomputed tag
truncated to that length. -/
theorem c3_amended (P : GcmPrims) (s password : String)
    (hlen : (base64Decode s).length < 96) :
    (decryptT P s password).2 = [(password, (base64Decode s).take 64)] ∧
    ((base64Decode s).length ≤ 64 →
      (decryptT P s password).1 = .error .invalidIV) ∧
    (64 < (base64Decode s).length → (base64Decode s).length ≤ 80 →
      (decryptT P s password).1 = .error .invalidAuthTagLength) ∧
    (∀ v, (decryptT P s password).1 = .ok v →
      validGcmTagLength ((base64Decode s).length - 80) = true ∧
      (base64Decode s).drop 80 =
        (P.gcmTag
          (P.pbkdf2 password ((base64Decode s).take 64) ITERATIONS 32 "sha512")
          (((base64Decode s).drop 64).take 16) ((base64Decode s).drop 96)).take
          ((base64Decode s).length - 80)) := by
  rw [decryptT]
  simp only [subarray, SALT_LENGTH, IV_LENGTH, TAG_LENGTH, List.drop_zero]
  norm_num
  refine ⟨?_, ?_, ?_⟩
  · intro h h'
    exact absurd (by omega) h'
  · intro h1 h2
    rw [if_neg (by omega)]
    have hmin : (16 : Nat) ⊓ ((base64Decode s).length - 80) =
        (base64Decode s).length - 80 := Nat.min_eq_right (by omega)
    rw [if_pos]
    rw [hmin]
    have h0 : (base64Decode s).length - 80 = 0 := by omega
    rw [h0]
    decide
  · intro v hv
    have hmin : (16 : Nat) ⊓ ((base64Decode s).length - 80) =
        (base64Decode s).length - 80 := Nat.min_eq_right (by omega)
    have hshort : ((base64Decode s).drop 80).length ≤ 16 := by
      simp
      omega
    split at hv
    · exact absurd hv (by simp)
    · split at hv
      · exact absurd hv (by simp)
      · split at hv
        · rename_i hcond1 hcond2 hcond3
          rw [hmin] at hcond2
          rw [List.take_of_length_le hshort, hmin] at hcond3
          constructor
          · revert hcond2
            cases validGcmTagLength ((base64Decode s).length - 80) <;> simp
          · exact hcond3
        · exact absurd hv (by simp)

/-- Witness for the amended C3, at the empty input. -/
theorem c3_amended_witness :
    (decryptT toyPrims "" "k").2 = [("k", (base64Decode "").take 64)] ∧
    ((base64Decode "").length ≤ 64 →
      (decryptT toyPrims "" "k").1 = .error .invalidIV) ∧
    (64 < (base64Decode "").length → (base64Decode "").length ≤ 80 →
      (decryptT toyPrims "" "k").1 = .error .invalidAuthTagLength) ∧
    (∀ v, (decryptT toyPrims "" "k").1 = .ok v →
      validGcmTagLength ((base64Decode "").length - 80) = true ∧
      (base64Decode "").drop 80 =
        (toyPrims.gcmTag
          (toyPrims.pbkdf2 "k" ((base64Decode "").take 64) ITERATIONS 32 "sha512")
          (((base64Decode "").drop 64).take 16) ((base64Decode "").drop 96)).take
          ((base64Decode "").length - 80)) :=
  c3_amended toyPrims "" "k" (by decide)

/-! ## Resolver lemmas -/

theorem passwordMarked_spec (v : Json) (hm : passwordMarked v = true) :
    ∃ p, credentialsPassword v = some (.str p) ∧ p ≠ "" ∧
      strStarts p marker = true := by
  rw [passwordMarked] at hm
  cases hcp : credentialsPassword v with
  | none => rw [hcp] at hm; simp at hm
  | some pw =>
      rw [hcp] at hm
      cases pw with
      | str p =>
          simp only [truthy, Bool.and_eq_true] at hm
          exact ⟨p, rfl, by simpa using hm.1, hm.2⟩
      | num n => simp at hm
      | bool b => simp at hm
      | null => simp at hm
      | arr xs => simp at hm
      | obj fs => simp at hm

/-- An entry whose password is not marked is returned unchanged with no
decrypt call, whatever the key. -/
theorem resolveEntry_unmarked (P : GcmPrims) (k : Option String) (env : String)
    (v : Json) (hm : passwordMarked v = false) :
    resolveEntry P k env v = (.ok v, 0) := by
  rw [resolveEntry]
  rw [passwordMarked] at hm
  cases hcp : credentialsPassword v with
  | none => rfl
  | some pw =>
      rw [hcp] at hm
      cases pw with
      | str p =>
          simp only [truthy] at hm ⊢
          by_cases hp : p = ""
          · subst hp
            simp
          · have hpb : (p != "") = true := by simpa using hp
            have hsw : strStarts p marker = false := by
              cases hx : strStarts p marker
              · rfl
              · rw [hpb, hx] at hm
                simp at hm
            rw [if_pos hpb]
            rw [if_neg (by simp [hsw])]
      | num n =>
          cases hn : (n != 0) <;> simp [truthy, hn]
      | bool b => cases b <;> simp [truthy]
      | null => simp [truthy]
      | arr xs => simp [truthy]
      | obj fs => simp [truthy]

/-- An entry with a marked password and no usable key fails with the
missing-key error before any decrypt call. -/
theorem resolveEntry_marked_noKey (P : GcmPrims) (k : Option String)
    (hk : k = none ∨ k = some "") (env : String) (v : Json)
    (hm : passwordMarked v = true) :
    resolveEntry P k env v =
      (.error (.missingEncryptionKey missingKeyMessage), 0) := by
  obtain ⟨p, hcp, hp, hsw⟩ := passwordMarked_spec v hm
  rw [resolveEntry, hcp]
  simp only [truthy]
  rw [if_pos (by simpa using hp), if_pos hsw]
  rcases hk with hk | hk <;> subst hk
  · rfl
  · simp

/-- An entry with a marked password and a usable key decrypts the
marker-stripped remainder and either replaces the password (success) or
fails with the wrapping error (failure); exactly one decrypt call. -/
theorem resolveEntry_marked_key (P : GcmPrims) (key : String) (hkey : key ≠ "")
    (env : String) (v : Json) (p : String)
    (hcp : credentialsPassword v = some (.str p)) (hp : p ≠ "")
    (hsw : strStarts p marker = true) :
    resolveEntry P (some key) env v =
      (match decrypt P (p.drop marker.length) key with
       | .ok plain => (.ok (setCredentialsPassword v (.str plain)), 1)
       | .error e =>
           (.error (.decryptionFailed env e (decryptFailedMessage env e)), 1)) := by
  rw [resolveEntry, hcp]
  simp only [truthy]
  rw [if_pos (by simpa using hp), if_pos hsw, if_neg hkey]

theorem resolveEntry_emptyKey (P : GcmPrims) (env : String) (v : Json) :
    resolveEntry P (some "") env v = resolveEntry P none env v := by
  by_cases hm : passwordMarked v
  · rw [resolveEntry_marked_noKey P (some "") (Or.inr rfl) env v hm,
      resolveEntry_marked_noKey P none (Or.inl rfl) env v hm]
  · rw [resolveEntry_unmarked P (some "") env v (by simpa using hm),
      resolveEntry_unmarked P none env v (by simpa using hm)]

theorem loadEntries_emptyKey (P : GcmPrims) (fs : List (String × Json)) :
    loadEntries P (some "") fs = loadEntries P none fs := by
  induction fs with
  | nil => rfl
  | cons e rest ih => rw [loadEntries, loadEntries, resolveEntry_emptyKey, ih]

theorem loadArr_emptyKey (P : GcmPrims) :
    ∀ (i : Nat) (elems : List Json),
    loadArr P (some "") i elems = loadArr P none i elems := by
  intro i elems
  induction elems generalizing i with
  | nil => rfl
  | cons v rest ih => rw [loadArr, loadArr, resolveEntry_emptyKey, ih]

theorem readJsonFileCore_emptyKey (P : GcmPrims) (doc : Json) :
    readJsonFileCore P (some "") doc = readJsonFileCore P none doc := by
  cases doc with
  | obj fields => rw [readJsonFileCore, readJsonFileCore, loadEntries_emptyKey]
  | arr elems => rw [readJsonFileCore, readJsonFileCore, loadArr_emptyKey]
  | str s => rfl
  | num n => rfl
  | bool b => rfl
  | null => rfl

theorem loadEntries_none_missing (P : GcmPrims) (fs : List (String × Json))
    (hm : (fs.any fun e => passwordMarked e.2) = true) :
    loadEntries P none fs =
      (.error (.missingEncryptionKey missingKeyMessage), 0) := by
  induction fs with
  | nil => simp at hm
  | cons e rest ih =>
      rw [loadEntries]
      by_cases hme : passwordMarked e.2
      · rw [resolveEntry_marked_noKey P none (Or.inl rfl) e.1 e.2 hme]
      · have hmeF : passwordMarked e.2 = false := by simpa using hme
        rw [resolveEntry_unmarked P none e.1 e.2 hmeF]
        have hrest : (rest.any fun x => passwordMarked x.2) = true := by
          simpa [List.any_cons, hmeF] using hm
        rw [ih hrest]

theorem loadArr_none_missing (P : GcmPrims) :
    ∀ (i : Nat) (elems : List Json), (elems.any passwordMarked) = true →
    loadArr P none i elems =
      (.error (.missingEncryptionKey missingKeyMessage), 0) := by
  intro i elems
  induction elems generalizing i with
  | nil => intro hm; simp at hm
  | cons v rest ih =>
      intro hm
      rw [loadArr]
      by_cases hme : passwordMarked v
      · rw [resolveEntry_marked_noKey P none (Or.inl rfl) (toString i) v hme]
      · have hmeF : passwordMarked v = false := by simpa using hme
        rw [resolveEntry_unmarked P none (toString i) v hmeF]
        have hrest : (rest.any passwordMarked) = true := by
          simpa [List.any_cons, hmeF] using hm
        rw [ih (i + 1) hrest]

theorem readJsonFileCore_none_missing (P : GcmPrims) (doc : Json)
    (hm : hasEncryptedField doc = true) :
    readJsonFileCore P none doc =
      (.error (.missingEncryptionKey missingKeyMessage), 0) := by
  cases doc with
  | obj fields =>
      rw [readJsonFileCore,
        loadEntries_none_missing P fields (by simpa [hasEncryptedField] using hm)]
  | arr elems =>
      rw [readJsonFileCore,
        loadArr_none_missing P 0 elems (by simpa [hasEncryptedField] using hm)]
  | str s => simp [hasEncryptedField] at hm
  | num n => simp [hasEncryptedField] at hm
  | bool b => simp [hasEncryptedField] at hm
  | null => simp [hasEncryptedField] at hm

/-- C5.  Missing key fast-fail: loading any document containing at least
one marker-bearing password field with no passphrase in the environment
fails with the missing-key error, whose message names the required
`ENCRYPTION_KEY` environment variable, and performs zero decrypt calls. -/
theorem c5_missing_key (P : GcmPrims) (doc : Json)
    (hm : hasEncryptedField doc = true) :
    (readJsonFileCore P none doc).1 =
      .error (.missingEncryptionKey missingKeyMessage) ∧
    (readJsonFileCore P none doc).2 = 0 ∧
    occursStr "ENCRYPTION_KEY" missingKeyMessage = true := by
  rw [readJsonFileCore_none_missing P doc hm]
  exact ⟨rfl, rfl, by decide⟩

/-- A concrete configuration document with one encrypted password. -/
def doc0 : Json :=
  .obj [("QA", .obj [("baseURL", .str "https://example.test"),
    ("credentials", .obj [("username", .str "u"),
      ("password", .str "encrypted:AAAA")])])]

/-- Witness for C5 on a concrete document. -/
theorem c5_missing_key_witness :
    hasEncryptedField doc0 = true ∧
    ((readJsonFileCore toyPrims none doc0).1 =
      .error (.missingEncryptionKey missingKeyMessage) ∧
    (readJsonFileCore toyPrims none doc0).2 = 0 ∧
    occursStr "ENCRYPTION_KEY" missingKeyMessage = true) :=
  ⟨by decide, c5_missing_key toyPrims doc0 (by decide)⟩

/-- C10.  An `ENCRYPTION_KEY` set to the empty string is treated exactly
like an absent one: the source tests `!encryptionKey`, and the empty
string is falsy, so the resolver behaves identically in the two cases;
in particular on a document with a marked password field it fails with
the missing-key error after zero decrypt calls, and the empty string is
never passed to `decrypt` as a passphrase. -/
theorem c10_empty_key (P : GcmPrims) (doc : Json) :
    readJsonFileCore P (some "") doc = readJsonFileCore P none doc ∧
    (hasEncryptedField doc = true →
      (readJsonFileCore P (some "") doc).1 =
        .error (.missingEncryptionKey missingKeyMessage) ∧
      (readJsonFileCore P (some "") doc).2 = 0) := by
  refine ⟨readJsonFileCore_emptyKey P doc, fun hm => ?_⟩
  rw [readJsonFileCore_emptyKey P doc, readJsonFileCore_none_missing P doc hm]
  exact ⟨rfl, rfl⟩

/-- Witness for C10 on a concrete document. -/
theorem c10_empty_key_witness :
    readJsonFileCore toyPrims (some "") doc0 =
      readJsonFileCore toyPrims none doc0 ∧
    ((readJsonFileCore toyPrims (some "") doc0).1 =
      .error (.missingEncryptionKey missingKeyMessage) ∧
    (readJsonFileCore toyPrims (some "") doc0).2 = 0) :=
  ⟨(c10_empty_key toyPrims doc0).1, (c10_empty_key toyPrims doc0).2 (by decide)⟩

/-! ## Characterizing successful and failed loads -/

theorem strStarts_ne_empty (p : String) (h : strStarts p marker = true) :
    p ≠ "" := by
  intro hp
  subst hp
  simp [strStarts, marker, leadsList] at h

theorem passwordMarked_of (v : Json) (p : String)
    (hcp : credentialsPassword v = some (.str p))
    (hsw : strStarts p marker = true) : passwordMarked v = true := by
  have hp : p ≠ "" := strStarts_ne_empty p hsw
  rw [passwordMarked, hcp]
  simp [truthy, hsw, hp]

/-- What a successful entry resolution can be: untouched (no marker, no
decrypt call) or decrypted in place (marker, one decrypt call). -/
theorem resolveEntry_ok_spec (P : GcmPrims) (k : Option String) (env : String)
    (v v' : Json) (n : Nat) (h : resolveEntry P k env v = (.ok v', n)) :
    (passwordMarked v = false ∧ v' = v ∧ n = 0) ∨
    (passwordMarked v = true ∧ ∃ key p plain, k = some key ∧ key ≠ "" ∧
      credentialsPassword v = some (.str p) ∧
      decrypt P (p.drop marker.length) key = .ok plain ∧
      v' = setCredentialsPassword v (.str plain) ∧ n = 1) := by
  by_cases hm : passwordMarked v
  · right
    refine ⟨hm, ?_⟩
    obtain ⟨p, hcp, hp, hsw⟩ := passwordMarked_spec v hm
    cases k with
    | none => rw [resolveEntry_marked_noKey P none (Or.inl rfl) env v hm] at h; cases h
    | some key =>
        by_cases hkey : key = ""
        · subst hkey
          rw [resolveEntry_marked_noKey P (some "") (Or.inr rfl) env v hm] at h
          cases h
        · rw [resolveEntry_marked_key P key hkey env v p hcp hp hsw] at h
          cases hd : decrypt P (p.drop marker.length) key with
          | ok plain =>
              rw [hd] at h
              simp only [Prod.mk.injEq, Except.ok.injEq] at h
              exact ⟨key, p, plain, rfl, hkey, hcp, hd, h.1.symm, h.2.symm⟩
          | error e => rw [hd] at h; cases h
  · left
    have hmF : passwordMarked v = false := by simpa using hm
    rw [resolveEntry_unmarked P k env v hmF] at h
    simp only [Prod.mk.injEq, Except.ok.injEq] at h
    exact ⟨hmF, h.1.symm, h.2.symm⟩

/-- What a failed entry resolution can be: a marked password and either
the missing-key error (no decrypt call) or a wrapped decrypt failure. -/
theorem resolveEntry_error_spec (P : GcmPrims) (k : Option String)
    (env : String) (v : Json) (err : LoadError) (m : Nat)
    (h : resolveEntry P k env v = (.error err, m)) :
    passwordMarked v = true ∧
    ((err = .missingEncryptionKey missingKeyMessage ∧ m = 0 ∧
        (k = none ∨ k = some "")) ∨
     (∃ key p e, k = some key ∧ key ≠ "" ∧
        credentialsPassword v = some (.str p) ∧
        decrypt P (p.drop marker.length) key = .error e ∧
        err = .decryptionFailed env e (decryptFailedMessage env e) ∧ m = 1)) := by
  by_cases hm : passwordMarked v
  · refine ⟨hm, ?_⟩
    obtain ⟨p, hcp, hp, hsw⟩ := passwordMarked_spec v hm
    cases k with
    | none =>
        rw [resolveEntry_marked_noKey P none (Or.inl rfl) env v hm] at h
        simp only [Prod.mk.injEq, Except.error.injEq] at h
        exact Or.inl ⟨h.1.symm, h.2.symm, Or.inl rfl⟩
    | some key =>
        by_cases hkey : key = ""
        · subst hkey
          rw [resolveEntry_marked_noKey P (some "") (Or.inr rfl) env v hm] at h
          simp only [Prod.mk.injEq, Except.error.injEq] at h
          exact Or.inl ⟨h.1.symm, h.2.symm, Or.inr rfl⟩
        · rw [resolveEntry_marked_key P key hkey env v p hcp hp hsw] at h
          cases hd : decrypt P (p.drop marker.length) key with
          | ok plain => rw [hd] at h; cases h
          | error e =>
              rw [hd] at h
              simp only [Prod.mk.injEq, Except.error.injEq] at h
              exact Or.inr ⟨key, p, e, rfl, hkey, hcp, hd, h.1.symm, h.2.symm⟩
  · have hmF : passwordMarked v = false := by simpa using hm
    rw [resolveEntry_unmarked P k env v hmF] at h
    cases h

/-- A successful load resolves the entries pointwise, in order. -/
theorem loadEntries_ok_spec (P : GcmPrims) (k : Option String) :
    ∀ (fs fs' : List (String × Json)) (n : Nat),
    loadEntries P k fs = (.ok fs', n) →
    List.Forall₂ (fun a b => a.1 = b.1 ∧
      ∃ m, resolveEntry P k a.1 a.2 = (.ok b.2, m)) fs fs' := by
  intro fs
  induction fs with
  | nil =>
      intro fs' n h
      rw [loadEntries] at h
      simp only [Prod.mk.injEq, Except.ok.injEq] at h
      rw [← h.1]
      exact List.Forall₂.nil
  | cons e rest ih =>
      intro fs' n h
      rw [loadEntries] at h
      cases hre : resolveEntry P k e.1 e.2 with
      | mk res m =>
          rw [hre] at h
          cases res with
          | error err => cases h
          | ok v' =>
              cases hrest : loadEntries P k rest with
              | mk resR mR =>
                  rw [hrest] at h
                  cases resR with
                  | error err => cases h
                  | ok rest' =>
                      simp only [Prod.mk.injEq, Except.ok.injEq] at h
                      rw [← h.1]
                      exact List.Forall₂.cons ⟨rfl, m, hre⟩ (ih rest' mR hrest)

/-- A failed load pins the failure on some entry of the document. -/
theorem loadEntries_error_spec (P : GcmPrims) (k : Option String) :
    ∀ (fs : List (String × Json)) (err : LoadError) (n : Nat),
    loadEntries P k fs = (.error err, n) →
    ∃ env v m, (env, v) ∈ fs ∧ resolveEntry P k env v = (.error err, m) := by
  intro fs
  induction fs with
  | nil => intro err n h; cases h
  | cons e rest ih =>
      intro err n h
      rw [loadEntries] at h
      cases hre : resolveEntry P k e.1 e.2 with
      | mk res m =>
          rw [hre] at h
          cases res with
          | error errE =>
              simp only [Prod.mk.injEq, Except.error.injEq] at h
              exact ⟨e.1, e.2, m, List.mem_cons_self e rest, by rw [hre, h.1]⟩
          | ok v' =>
              cases hrest : loadEntries P k rest with
              | mk resR mR =>
                  rw [hrest] at h
                  cases resR with
                  | ok rest' => cases h
                  | error errR =>
                      simp only [Prod.mk.injEq, Except.error.injEq] at h
                      obtain ⟨env, v, m', hmem, hres⟩ := ih errR mR hrest
                      exact ⟨env, v, m', List.mem_cons_of_mem e hmem, by rw [hres, h.1]⟩

theorem forall₂_mem_left {α β : Type} {R : α → β → Prop} :
    ∀ {l1 : List α} {l2 : List β}, List.Forall₂ R l1 l2 →
    ∀ a ∈ l1, ∃ b ∈ l2, R a b := by
  intro l1 l2 h
  induction h with
  | nil => intro a ha; simp at ha
  | @cons x y lx ly hR hrest ih =>
      intro a ha
      rcases List.mem_cons.mp ha with h1 | h1
      · subst h1
        exact ⟨y, List.mem_cons_self y ly, hR⟩
      · obtain ⟨b, hb, hRb⟩ := ih a h1
        exact ⟨b, List.mem_cons_of_mem y hb, hRb⟩

/-! ## Frame lemmas for the in-place password assignment -/

/-- One-level field access on a JSON value. -/
def jsonField (v : Json) (k : String) : Option Json :=
  match v with
  | .obj fs => getProp k fs
  | _ => none

/-- Two-level field access on a JSON value. -/
def jsonField2 (v : Json) (k1 k2 : String) : Option Json :=
  match jsonField v k1 with
  | some w => jsonField w k2
  | none => none

theorem getProp_setField_ne (fs : List (String × Json)) (k k' : String)
    (nv : Json) (h : k' ≠ k) :
    getProp k' (setField fs k nv) = getProp k' fs := by
  induction fs with
  | nil => rfl
  | cons e rest ih =>
      rw [setField]
      by_cases he : e.1 = k
      · rw [if_pos he, getProp, getProp]
        rw [if_neg (fun hx : k = k' => h hx.symm)]
        rw [if_neg (fun hx : e.1 = k' => h (hx.symm.trans he))]
      · rw [if_neg he, getProp, getProp]
        by_cases hk' : e.1 = k'
        · rw [if_pos hk', if_pos hk']
        · rw [if_neg hk', if_neg hk', ih]

theorem getProp_mapCred_ne (fs : List (String × Json)) (newPw : Json)
    (kx : String) (h : kx ≠ credentialsKey) :
    getProp kx (fs.map fun e =>
      if e.1 = credentialsKey then
        (e.1, match e.2 with
              | .obj cfields => Json.obj (setField cfields passwordKey newPw)
              | other => other)
      else e) = getProp kx fs := by
  induction fs with
  | nil => rfl
  | cons e rest ih =>
      rw [List.map_cons, getProp, getProp]
      by_cases hc : e.1 = credentialsKey
      · rw [if_pos hc]
        rw [if_neg (fun hx => h (hx.symm.trans hc))]
        rw [if_neg (fun hx => h (hx.symm.trans hc))]
        exact ih
      · rw [if_neg hc]
        by_cases hk : e.1 = kx
        · rw [if_pos hk, if_pos hk]
        · rw [if_neg hk, if_neg hk, ih]

theorem getProp_mapCred_cred (fs : List (String × Json)) (newPw : Json) :
    getProp credentialsKey (fs.map fun e =>
      if e.1 = credentialsKey then
        (e.1, match e.2 with
              | .obj cfields => Json.obj (setField cfields passwordKey newPw)
              | other => other)
      else e) =
      (match getProp credentialsKey fs with
       | some (.obj cf) => some (.obj (setField cf passwordKey newPw))
       | some other => some other
       | none => none) := by
  induction fs with
  | nil => rfl
  | cons e rest ih =>
      rw [List.map_cons, getProp, getProp]
      by_cases hc : e.1 = credentialsKey
      · rw [if_pos hc, if_pos hc, if_pos hc]
        cases e.2 with
        | obj cf => rfl
        | str s => rfl
        | num n => rfl
        | bool b => rfl
        | null => rfl
        | arr xs => rfl
      · rw [if_neg hc, if_neg hc, if_neg hc, ih]

/-- The assignment to `credentials.password` leaves every other top-level
field of an environment record untouched. -/
theorem setCred_frame1 (v : Json) (newPw : Json) (kx : String)
    (hkx : kx ≠ credentialsKey) :
    jsonField (setCredentialsPassword v newPw) kx = jsonField v kx := by
  cases v with
  | obj fs =>
      rw [setCredentialsPassword, jsonField, jsonField]
      exact getProp_mapCred_ne fs newPw kx hkx
  | str s => rfl
  | num n => rfl
  | bool b => rfl
  | null => rfl
  | arr xs => rfl

/-- The assignment to `credentials.password` leaves every other field of
the credentials record untouched. -/
theorem setCred_frame2 (v : Json) (newPw : Json) (ck : String)
    (hck : ck ≠ passwordKey) :
    jsonField2 (setCredentialsPassword v newPw) credentialsKey ck =
      jsonField2 v credentialsKey ck := by
  cases v with
  | obj fs =>
      rw [setCredentialsPassword, jsonField2, jsonField2, jsonField, jsonField]
      rw [getProp_mapCred_cred fs newPw]
      cases hcp : getProp credentialsKey fs with
      | none => rfl
      | some w =>
          cases w with
          | obj cf =>
              simp only
              rw [jsonField, jsonField]
              exact getProp_setField_ne cf passwordKey ck newPw hck
          | str s => rfl
          | num n => rfl
          | bool b => rfl
          | null => rfl
          | arr xs => rfl
  | str s => rfl
  | num n => rfl
  | bool b => rfl
  | null => rfl
  | arr xs => rfl

/-- C6.  Plaintext passthrough and frame: when a load succeeds the result
is an object with the same environment names in the same order; an entry
whose password value does not start with the marker is returned unchanged
byte for byte; and in every entry all top-level fields other than
`credentials`, and all credentials fields other than `password`, are
untouched — only marker-bearing password fields are replaced. -/
theorem c6_passthrough_frame (P : GcmPrims) (k : Option String)
    (fields : List (String × Json)) (w : Json) (n : Nat)
    (h : readJsonFileCore P k (.obj fields) = (.ok w, n)) :
    ∃ fields', w = .obj fields' ∧
      List.Forall₂ (fun a b =>
        a.1 = b.1 ∧
        (passwordMarked a.2 = false → b.2 = a.2) ∧
        (∀ kx, kx ≠ credentialsKey → jsonField b.2 kx = jsonField a.2 kx) ∧
        (∀ ck, ck ≠ passwordKey →
          jsonField2 b.2 credentialsKey ck = jsonField2 a.2 credentialsKey ck))
        fields fields' := by
  rw [readJsonFileCore] at h
  cases hle : loadEntries P k fields with
  | mk res cnt =>
      rw [hle] at h
      cases res with
      | error e => cases h
      | ok fields' =>
          simp only [Prod.mk.injEq, Except.ok.injEq] at h
          refine ⟨fields', h.1.symm, ?_⟩
          have hf := loadEntries_ok_spec P k fields fields' cnt hle
          refine hf.imp ?_
          rintro a b ⟨hfst, m, hres⟩
          rcases resolveEntry_ok_spec P k a.1 a.2 b.2 m hres with
            ⟨hm, hbv, _⟩ | ⟨hm, key, p, plain, hk, hkey, hcp, hd, hbv, _⟩
          · exact ⟨hfst, fun _ => hbv, fun kx _ => by rw [hbv],
              fun ck _ => by rw [hbv]⟩
          · refine ⟨hfst, fun hmf => absurd hm (by simp [hmf]), ?_, ?_⟩
            · intro kx hkx
              rw [hbv, setCred_frame1 a.2 (.str plain) kx hkx]
            · intro ck hck
              rw [hbv, setCred_frame2 a.2 (.str plain) ck hck]

/-- A concrete configuration document with a plaintext password. -/
def fields1 : List (String × Json) :=
  [("QA", .obj [("baseURL", .str "https://x.test"),
    ("credentials", .obj [("username", .str "u"),
      ("password", .str "plainPass123")])])]

/-- Witness for C6: a plaintext document loads unchanged. -/
theorem c6_passthrough_frame_witness :
    ∃ fields', Json.obj fields1 = .obj fields' ∧
      List.Forall₂ (fun a b =>
        a.1 = b.1 ∧
        (passwordMarked a.2 = false → b.2 = a.2) ∧
        (∀ kx, kx ≠ credentialsKey → jsonField b.2 kx = jsonField a.2 kx) ∧
        (∀ ck, ck ≠ passwordKey →
          jsonField2 b.2 credentialsKey ck = jsonField2 a.2 credentialsKey ck))
        fields1 fields' :=
  c6_passthrough_frame toyPrims none fields1 (.obj fields1) 0 rfl

theorem segIn_end (n s : List Char) : segIn n (s ++ n) = true := by
  have h := segIn_middle n s []
  rwa [List.append_nil] at h

/-- C7.  Whole-load failure with entry identification: (a) when `load`
fails with the wrapper error, the named environment entry is an entry of
the document whose marked password failed to decrypt with exactly the
wrapped codec error, and the message names that entry and embeds the
underlying error's message; (b) if any entry's marked password fails to
decrypt, `load` never returns a document — the whole load fails; (c) a
successful load replaces every marked password by the decrypt output of
its marker-stripped envelope text, so no field still holds its original
`encrypted:` text undecoded. -/
theorem c7_whole_load (P : GcmPrims) (key : String) (hkey : key ≠ "")
    (fields : List (String × Json)) :
    (∀ env e msg n,
      readJsonFileCore P (some key) (.obj fields) =
        (.error (.decryptionFailed env e msg), n) →
      ∃ v p, (env, v) ∈ fields ∧ credentialsPassword v = some (.str p) ∧
        strStarts p marker = true ∧
        decrypt P (p.drop marker.length) key = .error e ∧
        msg = decryptFailedMessage env e ∧
        occursStr env msg = true ∧ occursStr (errMessage e) msg = true) ∧
    (∀ env v p e, (env, v) ∈ fields →
      credentialsPassword v = some (.str p) → strStarts p marker = true →
      decrypt P (p.drop marker.length) key = .error e →
      ∀ w n, readJsonFileCore P (some key) (.obj fields) ≠ (.ok w, n)) ∧
    (∀ fields' n,
      readJsonFileCore P (some key) (.obj fields) = (.ok (.obj fields'), n) →
      List.Forall₂ (fun a b => a.1 = b.1 ∧
        (passwordMarked a.2 = true →
          ∃ p plain, credentialsPassword a.2 = some (.str p) ∧
            decrypt P (p.drop marker.length) key = .ok plain ∧
            b.2 = setCredentialsPassword a.2 (.str plain))) fields fields') := by
  refine ⟨?_, ?_, ?_⟩
  · intro env e msg n h
    rw [readJsonFileCore] at h
    cases hle : loadEntries P (some key) fields with
    | mk res cnt =>
        rw [hle] at h
        cases res with
        | ok fieldsX => cases h
        | error err =>
            simp only [Prod.mk.injEq, Except.error.injEq] at h
            obtain ⟨env', v, m, hmem, hres⟩ :=
              loadEntries_error_spec P (some key) fields err cnt hle
            rw [h.1] at hres
            obtain ⟨hm, hcase⟩ :=
              resolveEntry_error_spec P (some key) env' v _ m hres
            rcases hcase with ⟨habs, _, _⟩ | ⟨key', p, e', hk', hkey', hcp, hd, herr, _⟩
            · cases habs
            · have hkk : key = key' := by injection hk'
              subst hkk
              obtain ⟨henv, he, hmsg⟩ :
                  env = env' ∧ e = e' ∧ msg = decryptFailedMessage env' e' := by
                injection herr with h1 h2 h3
                exact ⟨h1, h2, h3⟩
              subst henv
              subst he
              obtain ⟨p0, hcp0, hp0, hsw0⟩ := passwordMarked_spec v hm
              have hpp : p0 = p := by
                rw [hcp0] at hcp
                injection hcp with hx
                injection hx
              subst hpp
              have hocc1 : occursStr env (decryptFailedMessage env e) = true := by
                rw [occursStr]
                have hdata : (decryptFailedMessage env e).data =
                    "Failed to decrypt password for ".data ++ (env.data ++
                      (" environment. ".data ++
                        ("Verify ENCRYPTION_KEY is correct. Error: ".data ++
                          (errMessage e).data))) := by
                  rw [decryptFailedMessage]
                  simp
                rw [hdata]
                exact segIn_middle env.data _ _
              have hocc2 : occursStr (errMessage e) (decryptFailedMessage env e)
                  = true := by
                rw [occursStr]
                have hdata : (decryptFailedMessage env e).data =
                    ("Failed to decrypt password for ".data ++ (env.data ++
                      (" environment. ".data ++
                        "Verify ENCRYPTION_KEY is correct. Error: ".data))) ++
                      (errMessage e).data := by
                  rw [decryptFailedMessage]
                  simp
                rw [hdata]
                exact segIn_end (errMessage e).data _
              refine ⟨v, p0, hmem, hcp0, hsw0, hd, hmsg, ?_, ?_⟩
              · rw [hmsg]
                exact hocc1
              · rw [hmsg]
                exact hocc2
  · intro env v p e hmem hcp hsw hd w n hok
    rw [readJsonFileCore] at hok
    cases hle : loadEntries P (some key) fields with
    | mk res cnt =>
        rw [hle] at hok
        cases res with
        | error err => cases hok
        | ok fieldsX =>
            have hf := loadEntries_ok_spec P (some key) fields fieldsX cnt hle
            obtain ⟨b, hb, hfst, m, hres⟩ := forall₂_mem_left hf (env, v) hmem
            rcases resolveEntry_ok_spec P (some key) env v b.2 m hres with
              ⟨hmF, _, _⟩ | ⟨_, key', p', plain, hk', hkey', hcp', hd', _, _⟩
            · exact absurd (passwordMarked_of v p hcp hsw) (by simp [hmF])
            · have hpp : p' = p := by
                rw [hcp'] at hcp
                exact Json.str.inj (Option.some.inj hcp)
              subst hpp
              have hkk : key = key' := by injection hk'
              subst hkk
              rw [hd] at hd'
              cases hd'
  · intro fields' n h
    rw [readJsonFileCore] at h
    cases hle : loadEntries P (some key) fields with
    | mk res cnt =>
        rw [hle] at h
        cases res with
        | error err => cases h
        | ok fieldsX =>
            simp only [Prod.mk.injEq, Except.ok.injEq] at h
            have hff : fieldsX = fields' := by
              injection h.1
            subst hff
            have hf := loadEntries_ok_spec P (some key) fields fieldsX cnt hle
            refine hf.imp ?_
            rintro a b ⟨hfst, m, hres⟩
            refine ⟨hfst, fun hm => ?_⟩
            rcases resolveEntry_ok_spec P (some key) a.1 a.2 b.2 m hres with
              ⟨hmF, _, _⟩ | ⟨_, key', p, plain, hk', hkey', hcp', hd', hbv, _⟩
            · exact absurd hm (by simp [hmF])
            · have hkk : key = key' := by injection hk'
              subst hkk
              exact ⟨p, plain, hcp', hd', hbv⟩

/-- A concrete environment record with an encrypted password whose
envelope text is too short to decrypt. -/
def v0 : Json := .obj [("credentials", .obj [("password", .str "encrypted:AAAA")])]

def fields0 : List (String × Json) := [("QA", v0)]

/-- Witness for C7 on a concrete failing document. -/
theorem c7_whole_load_witness :
    (∃ v p, ("QA", v) ∈ fields0 ∧ credentialsPassword v = some (.str p) ∧
      strStarts p marker = true ∧
      decrypt toyPrims (p.drop marker.length) "k" = .error .invalidIV ∧
      decryptFailedMessage "QA" .invalidIV = decryptFailedMessage "QA" .invalidIV ∧
      occursStr "QA" (decryptFailedMessage "QA" .invalidIV) = true ∧
      occursStr (errMessage .invalidIV)
        (decryptFailedMessage "QA" .invalidIV) = true) ∧
    (∀ w n, readJsonFileCore toyPrims (some "k") (.obj fields0) ≠ (.ok w, n)) :=
  ⟨(c7_whole_load toyPrims "k" (by decide) fields0).1 "QA" .invalidIV
      (decryptFailedMessage "QA" .invalidIV) 1 rfl,
   (c7_whole_load toyPrims "k" (by decide) fields0).2.1 "QA" v0
      "encrypted:AAAA" .invalidIV (by simp [fields0]) rfl (by decide) rfl⟩

/-! ## Claims about the offline CLI -/

/-- Counterexample to C9 as stated: on concrete operator inputs the CLI's
printed output contains the passphrase — the `export ENCRYPTION_KEY`
helper line it prints embeds it verbatim. -/
theorem c9_counterexample :
    "export ENCRYPTION_KEY=\"mykey123\"" ∈
      cliOutput toyPrims salt0 iv0 "secret1" "mykey123" ∧
    occursStr "mykey123" "export ENCRYPTION_KEY=\"mykey123\"" = true := by
  constructor
  · rw [cliOutput]
    rw [if_neg (by decide)]
    simp
  · decide

/-- C9 amended: for every non-empty plaintext secret and passphrase, the
CLI's success output contains the line
`export ENCRYPTION_KEY="<passphrase>"`, so the passphrase appears
verbatim in the printed output (the plaintext secret itself is printed
only inside the `"password": "encrypted:…"` envelope line). -/
theorem c9_amended (P : GcmPrims) (salt iv : List Nat)
    (password encryptionKey : String)
    (hp : password ≠ "") (hk : encryptionKey ≠ "") :
    ("export ENCRYPTION_KEY=\"" ++ encryptionKey ++ "\"") ∈
      cliOutput P salt iv password encryptionKey ∧
    occursStr encryptionKey
      ("export ENCRYPTION_KEY=\"" ++ encryptionKey ++ "\"") = true := by
  constructor
  · rw [cliOutput, if_neg (by simp [hp, hk])]
    simp
  · rw [occursStr]
    have hdata : ("export ENCRYPTION_KEY=\"" ++ encryptionKey ++ "\"").data =
        "export ENCRYPTION_KEY=\"".data ++ (encryptionKey.data ++ "\"".data) := by
      simp
    rw [hdata]
    exact segIn_middle encryptionKey.data _ _

/-- Witness for the amended C9 at concrete inputs. -/
theorem c9_amended_witness :
    ("export ENCRYPTION_KEY=\"" ++ "mykey123" ++ "\"") ∈
      cliOutput toyPrims salt0 iv0 "secret1" "mykey123" ∧
    occursStr "mykey123"
      ("export ENCRYPTION_KEY=\"" ++ "mykey123" ++ "\"") = true :=
  c9_amended toyPrims salt0 iv0 "secret1" "mykey123" (by decide) (by decide)
